import Mathlib

/-!
Verification development for the AI-Deployment-Intel pipeline (src/src/main.py).
Python strings are modelled as lists of characters; the pipeline's remote
collaborators (search, fetch, LLM evaluation, storage) are modelled as oracle
functions supplied through an environment record, so a theorem quantified over
environments covers every possible sequence of remote-call outcomes.
-/

/-- Python `str` is modelled as a list of characters. -/
abbrev Str := List Char

/-- Whitespace predicate used by Python `str.strip()`. -/
def pyWs (c : Char) : Bool := c.isWhitespace

/-- Python `str.strip()`: drop whitespace from both ends. -/
def pyStrip (l : Str) : Str := ((l.dropWhile pyWs).reverse.dropWhile pyWs).reverse

/-- Earliest occurrence of `sep` in a list: returns the part strictly before the
occurrence and the part strictly after it, or `none` when `sep` does not occur.
This is the primitive under both Python `str.split(sep)` and `str.replace`. -/
def splitFirst (sep : Str) : Str → Option (Str × Str)
  | [] => none
  | c :: rest =>
      if sep.isPrefixOf (c :: rest) then some ([], (c :: rest).drop sep.length)
      else
        match splitFirst sep rest with
        | some (pre, post) => some (c :: pre, post)
        | none => none

theorem splitFirst_some_length {c0 : Char} {s0 : Str} :
    ∀ {l pre post : Str}, splitFirst (c0 :: s0) l = some (pre, post) →
      post.length < l.length := by
  intro l
  induction l with
  | nil => intro pre post h; simp [splitFirst] at h
  | cons c rest ih =>
      intro pre post h
      rw [splitFirst] at h
      by_cases hp : (c0 :: s0).isPrefixOf (c :: rest)
      · simp only [hp, if_true] at h
        cases h
        simp only [List.length_cons, List.length_drop]
        omega
      · simp only [hp, if_false] at h
        cases hsf : splitFirst (c0 :: s0) rest with
        | none => rw [hsf] at h; cases h
        | some pp =>
            rw [hsf] at h
            cases pp with
            | mk pre' post' =>
                cases h
                have := ih hsf
                simp only [List.length_cons]
                omega

/-- Fuel-driven splitting loop; each found occurrence strictly shrinks the
remaining input, so fuel exceeding the input length is never exhausted. -/
def pySplitFuel (c0 : Char) (s0 : Str) : Nat → Str → List Str
  | 0, l => [l]
  | fuel + 1, l =>
      match splitFirst (c0 :: s0) l with
      | none => [l]
      | some (pre, post) => pre :: pySplitFuel c0 s0 fuel post

/-- Python `str.split(sep)` for a non-empty separator `c0 :: s0`. -/
def pySplitNE (c0 : Char) (s0 : Str) (l : Str) : List Str :=
  pySplitFuel c0 s0 (l.length + 1) l

/-- Fuel-driven replacement loop, analogous to `pySplitFuel`. -/
def pyReplaceFuel (c0 : Char) (s0 : Str) (rep : Str) : Nat → Str → Str
  | 0, l => l
  | fuel + 1, l =>
      match splitFirst (c0 :: s0) l with
      | none => l
      | some (pre, post) => pre ++ rep ++ pyReplaceFuel c0 s0 rep fuel post

/-- Python `str.replace(pat, rep)` for a non-empty pattern `c0 :: s0`. -/
def pyReplaceNE (c0 : Char) (s0 : Str) (rep : Str) (l : Str) : Str :=
  pyReplaceFuel c0 s0 rep (l.length + 1) l

theorem pySplitFuel_none {c0 : Char} {s0 l : Str} {n : Nat}
    (h : splitFirst (c0 :: s0) l = none) : pySplitFuel c0 s0 (n + 1) l = [l] := by
  simp only [pySplitFuel, h]

theorem pySplitFuel_some {c0 : Char} {s0 l pre post : Str} {n : Nat}
    (h : splitFirst (c0 :: s0) l = some (pre, post)) :
    pySplitFuel c0 s0 (n + 1) l = pre :: pySplitFuel c0 s0 n post := by
  simp only [pySplitFuel, h]

theorem pyReplaceFuel_none {c0 : Char} {s0 rep l : Str} {n : Nat}
    (h : splitFirst (c0 :: s0) l = none) : pyReplaceFuel c0 s0 rep (n + 1) l = l := by
  simp only [pyReplaceFuel, h]

theorem pyReplaceFuel_some {c0 : Char} {s0 rep l pre post : Str} {n : Nat}
    (h : splitFirst (c0 :: s0) l = some (pre, post)) :
    pyReplaceFuel c0 s0 rep (n + 1) l = pre ++ rep ++ pyReplaceFuel c0 s0 rep n post := by
  simp only [pyReplaceFuel, h]

/-- JSON values, as produced by Python `json.loads`.  Numbers are modelled as
rationals (Python ints and the short decimal floats appearing in evaluator
output are exact rationals). -/
inductive Json : Type where
  | null : Json
  | bool (b : Bool) : Json
  | num (q : Rat) : Json
  | str (s : Str) : Json
  | arr (items : List Json) : Json
  | obj (members : List (Str × Json)) : Json

/-- JSON inter-token whitespace accepted by `json.loads`. -/
def jsonWs (c : Char) : Bool := c == ' ' || c == '\n' || c == '\t' || c == '\r'

def skipWs (s : Str) : Str := s.dropWhile jsonWs

/-- JSON string escape characters accepted by the parser model. -/
def escChar (c : Char) : Option Char :=
  if c = '\"' then some '\"'
  else if c = '\\' then some '\\'
  else if c = '/' then some '/'
  else if c = 'n' then some '\n'
  else if c = 't' then some '\t'
  else if c = 'r' then some '\r'
  else if c = 'b' then some (Char.ofNat 8)
  else if c = 'f' then some (Char.ofNat 12)
  else none

/-- Parse the body of a JSON string literal after the opening quote. -/
def parseStringBody : Str → Option (Str × Str)
  | [] => none
  | c :: rest =>
      if c = '\"' then some ([], rest)
      else if c = '\\' then
        match rest with
        | [] => none
        | e :: rest' =>
            match escChar e with
            | none => none
            | some ec =>
                match parseStringBody rest' with
                | none => none
                | some (s, r) => some (ec :: s, r)
      else if c.toNat < 32 then none
      else
        match parseStringBody rest with
        | none => none
        | some (s, r) => some (c :: s, r)

def digitVal (c : Char) : Nat := c.toNat - 48

def digitsToNat (ds : Str) : Nat := ds.foldl (fun acc c => acc * 10 + digitVal c) 0

/-- Parse a JSON number (optional sign, integer part, optional fraction). -/
def parseNumber (s : Str) : Option (Rat × Str) :=
  let p : Bool × Str := match s with
    | '-' :: rest => (true, rest)
    | _ => (false, s)
  let neg := p.1
  let s1 := p.2
  let intDigits := s1.takeWhile Char.isDigit
  let s2 := s1.dropWhile Char.isDigit
  if intDigits = [] then none
  else
    let ipart : Nat := digitsToNat intDigits
    match s2 with
    | '.' :: rest =>
        let fracDigits := rest.takeWhile Char.isDigit
        let s3 := rest.dropWhile Char.isDigit
        if fracDigits = [] then none
        else
          let mantissa : Nat := ipart * 10 ^ fracDigits.length + digitsToNat fracDigits
          let q : Rat := (mantissa : Rat) / ((10 : Rat) ^ fracDigits.length)
          some (if neg then -q else q, s3)
    | _ => some (if neg then -(ipart : Rat) else (ipart : Rat), s2)

mutual

/-- Recursive-descent JSON value parser; `fuel` bounds the recursion and is
always supplied as more than the input length, which suffices because every
recursive call consumes input. -/
def parseValue : Nat → Str → Option (Json × Str)
  | 0, _ => none
  | fuel + 1, s =>
      match skipWs s with
      | [] => none
      | c :: rest =>
          if c = '\"' then
            match parseStringBody rest with
            | some (str, r) => some (.str str, r)
            | none => none
          else if c = 't' then
            if ['r', 'u', 'e'].isPrefixOf rest then some (.bool true, rest.drop 3) else none
          else if c = 'f' then
            if ['a', 'l', 's', 'e'].isPrefixOf rest then some (.bool false, rest.drop 4) else none
          else if c = 'n' then
            if ['u', 'l', 'l'].isPrefixOf rest then some (.null, rest.drop 3) else none
          else if c = Char.ofNat 123 then parseObjBody fuel rest
          else if c = '[' then parseArrBody fuel rest
          else if c = '-' || c.isDigit then
            match parseNumber (c :: rest) with
            | some (q, r) => some (.num q, r)
            | none => none
          else none

/-- Parse an object body after the opening brace. -/
def parseObjBody : Nat → Str → Option (Json × Str)
  | 0, _ => none
  | fuel + 1, s =>
      match skipWs s with
      | c :: rest =>
          if c = Char.ofNat 125 then some (.obj [], rest)
          else parseMembers fuel (c :: rest) []
      | [] => none

/-- Parse one or more `"key": value` members, accumulating in source order. -/
def parseMembers : Nat → Str → List (Str × Json) → Option (Json × Str)
  | 0, _, _ => none
  | fuel + 1, s, acc =>
      match skipWs s with
      | '\"' :: rest =>
          match parseStringBody rest with
          | none => none
          | some (key, r1) =>
              match skipWs r1 with
              | ':' :: r2 =>
                  match parseValue fuel r2 with
                  | none => none
                  | some (v, r3) =>
                      match skipWs r3 with
                      | ',' :: r4 => parseMembers fuel r4 (acc ++ [(key, v)])
                      | c :: r4 =>
                          if c = Char.ofNat 125 then some (.obj (acc ++ [(key, v)]), r4)
                          else none
                      | [] => none
              | _ => none
      | _ => none

/-- Parse an array body after the opening bracket. -/
def parseArrBody : Nat → Str → Option (Json × Str)
  | 0, _ => none
  | fuel + 1, s =>
      match skipWs s with
      | ']' :: rest => some (.arr [], rest)
      | other => parseItems fuel other []

/-- Parse one or more array items, accumulating in source order. -/
def parseItems : Nat → Str → List Json → Option (Json × Str)
  | 0, _, _ => none
  | fuel + 1, s, acc =>
      match parseValue fuel s with
      | none => none
      | some (v, r1) =>
          match skipWs r1 with
          | ',' :: r2 => parseItems fuel r2 (acc ++ [v])
          | ']' :: r2 => some (.arr (acc ++ [v]), r2)
          | _ => none

end

/-- Model of Python `json.loads`: parse one JSON value and require that only
whitespace remains; `none` models a raised `JSONDecodeError`. -/
def jsonLoads (s : Str) : Option Json :=
  match parseValue (s.length + 2) s with
  | some (v, rest) => if skipWs rest = [] then some v else none
  | none => none

/-- The backquote character (written via its code point). -/
def btChar : Char := Char.ofNat 96

/-- The three-backquote code-fence marker. -/
def backtick3 : Str := [btChar, btChar, btChar]

/-- The characters of the fence language tag `json`. -/
def jsonTag : Str := ['j', 's', 'o', 'n']

/-- Python `"```" in t`, via the first-occurrence search. -/
def containsFence (t : Str) : Bool := (splitFirst backtick3 t).isSome

/-- Lines 725-727 of main.py: strip the response, and if it contains a
code-fence marker take `split("```")[1]`, delete every occurrence of `json`,
and strip again. -/
def stripFences (raw : Str) : Str :=
  let t := pyStrip raw
  if containsFence t then
    pyStrip (pyReplaceNE 'j' ['s', 'o', 'n'] [] ((pySplitNE btChar [btChar, btChar] t).getD 1 []))
  else t

/-- The pipeline's whole textual handling of an evaluator response:
fence stripping followed by `json.loads`. -/
def handleResponse (raw : Str) : Option Json := jsonLoads (stripFences raw)

/-- Last-binding lookup in a parsed JSON object's member list; Python builds a
dict from the members, so a duplicated key keeps its final value. -/
def memberGet : List (Str × Json) → Str → Option Json
  | [], _ => none
  | (k, v) :: rest, key =>
      match memberGet rest key with
      | some r => some r
      | none => if k = key then some v else none

/-- Python `evaluation.get(key, dflt)` on a dict decoded from JSON. -/
def dictGetD (v : Json) (key : Str) (dflt : Json) : Json :=
  match v with
  | .obj ms => (memberGet ms key).getD dflt
  | _ => dflt

/-- Python truthiness of a decoded JSON value. -/
def truthy : Json → Bool
  | .null => false
  | .bool b => b
  | .num q => !(q == 0)
  | .str s => !s.isEmpty
  | .arr items => !items.isEmpty
  | .obj members => !members.isEmpty

/-- Python `quality >= min_quality` where `quality` is a decoded JSON value:
numbers and booleans compare as numbers, anything else raises a `TypeError`
(modelled as `none`). -/
def pyGe (v : Json) (m : Int) : Option Bool :=
  match v with
  | .num q => some (decide ((m : Rat) ≤ q))
  | .bool b => some (decide ((m : Rat) ≤ if b then 1 else 0))
  | _ => none

/-- One search hit as consumed by the pipeline loop (`item.get("url", "")`,
`item.get("title", "")`). -/
structure SearchItem where
  title : Str
  url : Str

/-- Outcome of one Tavily search call: a raised exception or a result list. -/
inductive SearchOutcome where
  | err (msg : Str) : SearchOutcome
  | ok (results : List SearchItem) : SearchOutcome

/-- Outcome of one Firecrawl scrape: a raised exception, or the markdown field
(`none` models Python `None`) plus the optional metadata title. -/
inductive FetchOutcome where
  | err (msg : Str) : FetchOutcome
  | ok (markdown : Option Str) (metaTitle : Option (Option Str)) : FetchOutcome

/-- Outcome of one Anthropic evaluation call: a raised exception or the
response text. -/
inductive EvalOutcome where
  | err (msg : Str) : EvalOutcome
  | resp (text : Str) : EvalOutcome

/-- Outcome of one Supabase upsert issued by the pipeline. -/
inductive StoreOutcome where
  | err (msg : Str) : StoreOutcome
  | ok : StoreOutcome

/-- The record upserted by run_pipeline (lines 742-756); evaluation-derived
fields keep their decoded JSON values. -/
structure PipelineRecord where
  url : Str
  title : Str
  company : Json
  use_case : Json
  is_deployment_story : Bool
  confidence : Json
  quality_score : Json
  deployment_stage : Json
  content_type : Json
  technology_stack : Json
  results : Json
  lessons_learned : Json
  content_snippet : Str

/-- The remote collaborators of one run, as oracle functions. -/
structure Env where
  search : Str → Nat → SearchOutcome
  fetch : Str → FetchOutcome
  evaluate : Str → Str → Str → EvalOutcome
  store : PipelineRecord → StoreOutcome

/-- The `stats` accumulator of run_pipeline. -/
structure Stats where
  queries_executed : Nat
  searched : Nat
  fetched : Nat
  evaluated : Nat
  stored : Nat
  errors : List Str
  queries_used : List Str
deriving DecidableEq

def initStats : Stats :=
  { queries_executed := 0, searched := 0, fetched := 0, evaluated := 0, stored := 0,
    errors := [], queries_used := [] }

def addErr (st : Stats) (m : Str) : Stats := { st with errors := st.errors ++ [m] }

def bumpFetched (st : Stats) : Stats := { st with fetched := st.fetched + 1 }

def bumpEvaluated (st : Stats) : Stats := { st with evaluated := st.evaluated + 1 }

def bumpStored (st : Stats) : Stats := { st with stored := st.stored + 1 }

/-- Error text of line 660 (the quote marks Python puts around the query are
omitted; no claim depends on the exact message text). -/
def searchErrMsg (q e : Str) : Str := "Search error for ".toList ++ q ++ ": ".toList ++ e

def fetchErrMsg (url e : Str) : Str := "Fetch error for ".toList ++ url ++ ": ".toList ++ e

def evalErrMsg (url e : Str) : Str := "Evaluation error for ".toList ++ url ++ ": ".toList ++ e

def storageErrMsg (url e : Str) : Str := "Storage error for ".toList ++ url ++ ": ".toList ++ e

/-- Stand-in text for a stringified `json.JSONDecodeError`. -/
def jsonFailText : Str := "Expecting value".toList

/-- Stand-in text for the stringified `AttributeError` raised by calling
`.get` on a decoded non-dict value. -/
def attrFailText : Str := "object has no attribute get".toList

/-- Stand-in text for the uncaught `TypeError` raised at line 740 when a
non-numeric quality score is compared with `min_quality`. -/
def typeErrorMsg : Str := "TypeError: unsupported comparison".toList

def keyIsStory : Str := "is_deployment_story".toList

def keyConfidence : Str := "confidence".toList

def keyReason : Str := "reason".toList

def keyCompany : Str := "company".toList

def keyUseCase : Str := "use_case".toList

def keyTech : Str := "technology_stack".toList

def keyResults : Str := "results".toList

def keyLessons : Str := "lessons_learned".toList

def keyStage : Str := "deployment_stage".toList

def keyCType : Str := "content_type".toList

def keyQuality : Str := "quality_score".toList

/-- Title resolution of lines 671-672: if metadata is present and its title is
truthy it replaces the search title. -/
def resolveTitle (t : Str) (metaTitle : Option (Option Str)) : Str :=
  match metaTitle with
  | some (some t2) => if t2 = [] then t else t2
  | _ => t

/-- The record literal of lines 742-756. -/
def buildRecord (url title content : Str) (ev : Json) (quality : Json) : PipelineRecord :=
  { url := url
    title := title
    company := dictGetD ev keyCompany Json.null
    use_case := dictGetD ev keyUseCase Json.null
    is_deployment_story := true
    confidence := dictGetD ev keyConfidence Json.null
    quality_score := quality
    deployment_stage := dictGetD ev keyStage Json.null
    content_type := dictGetD ev keyCType Json.null
    technology_stack := dictGetD ev keyTech (Json.arr [])
    results := dictGetD ev keyResults (Json.arr [])
    lessons_learned := dictGetD ev keyLessons (Json.arr [])
    content_snippet := content.take 2000 }

/-- Lines 740-760 of main.py: the store decision and the guarded upsert.  The
`Except` error models the uncaught `TypeError` raised when a truthy
`is_deployment_story` is paired with a non-numeric `quality_score`. -/
def storeStage (env : Env) (min_quality : Int) (st : Stats) (url title content : Str)
    (ev : Json) : Except Str Stats :=
  if truthy (dictGetD ev keyIsStory (Json.bool false)) then
    match pyGe (dictGetD ev keyQuality (Json.num 0)) min_quality with
    | none => .error typeErrorMsg
    | some false => .ok st
    | some true =>
        match env.store (buildRecord url title content ev (dictGetD ev keyQuality (Json.num 0))) with
        | .ok => .ok (bumpStored st)
        | .err e => .ok (addErr st (storageErrMsg url e))
  else .ok st

/-- Lines 729-737: after `json.loads` succeeded, `evaluated` is incremented and
the `get` calls run; on a decoded non-dict they raise inside the same `try`,
which records a per-URL error and continues. -/
def afterParse (env : Env) (min_quality : Int) (st : Stats) (url title content : Str) :
    Json → Except Str Stats
  | .obj ms => storeStage env min_quality (bumpEvaluated st) url title content (.obj ms)
  | _ => .ok (addErr (bumpEvaluated st) (evalErrMsg url attrFailText))

/-- Lines 678-737: the length gate, the evaluator call and its response
handling.  `st` has already been bumped for a successful fetch. -/
def evalStage (env : Env) (min_quality : Int) (st : Stats) (url title content : Str) :
    Except Str Stats :=
  if content.length < 300 then .ok st
  else
    match env.evaluate url title (content.take 12000) with
    | .err e => .ok (addErr st (evalErrMsg url e))
    | .resp raw =>
        match handleResponse raw with
        | none => .ok (addErr st (evalErrMsg url jsonFailText))
        | some ev => afterParse env min_quality st url title content ev

/-- Lines 663-760: processing of a single search hit. -/
def processHit (env : Env) (min_quality : Int) (st : Stats) (item : SearchItem) :
    Except Str Stats :=
  match env.fetch item.url with
  | .err e => .ok (addErr st (fetchErrMsg item.url e))
  | .ok markdown metaTitle =>
      evalStage env min_quality (bumpFetched st) item.url
        (resolveTitle item.title metaTitle) (markdown.getD [])

/-- The inner `for item in search_results` loop. -/
def processHits (env : Env) (min_quality : Int) : Stats → List SearchItem → Except Str Stats
  | st, [] => .ok st
  | st, item :: rest =>
      match processHit env min_quality st item with
      | .error e => .error e
      | .ok st' => processHits env min_quality st' rest

/-- Lines 648-661 then the hit loop: processing of a single query. -/
def processQuery (env : Env) (results_per_query : Nat) (min_quality : Int)
    (st : Stats) (query : Str) : Except Str Stats :=
  let st := { st with queries_used := st.queries_used ++ [query],
                      queries_executed := st.queries_executed + 1 }
  match env.search query results_per_query with
  | .err e => .ok (addErr st (searchErrMsg query e))
  | .ok results =>
      processHits env min_quality { st with searched := st.searched + results.length } results

/-- The outer `for query in queries` loop. -/
def processQueries (env : Env) (results_per_query : Nat) (min_quality : Int) :
    Stats → List Str → Except Str Stats
  | st, [] => .ok st
  | st, q :: rest =>
      match processQuery env results_per_query min_quality st q with
      | .error e => .error e
      | .ok st' => processQueries env results_per_query min_quality st' rest

/-- The module-level search query bank of main.py (30 distinct queries). -/
def SEARCH_QUERY_BANK : List Str :=
  ["LLM deployment production lessons learned 2025".toList,
   "GPT-4 enterprise implementation case study".toList,
   "Claude API production deployment".toList,
   "open source LLM deployment production".toList,
   "fine-tuning LLM production challenges".toList,
   "LLM serving infrastructure production".toList,
   "prompt engineering production systems".toList,
   "RAG implementation production enterprise".toList,
   "vector database deployment production scale".toList,
   "semantic search production deployment".toList,
   "document AI production deployment".toList,
   "AI deployment healthcare case study".toList,
   "machine learning fintech production".toList,
   "recommendation system e-commerce scale".toList,
   "computer vision manufacturing deployment".toList,
   "NLP production deployment enterprise".toList,
   "AI model monitoring production".toList,
   "LLM cost optimization production".toList,
   "ML inference latency optimization".toList,
   "model serving infrastructure production".toList,
   "AI reliability production deployment".toList,
   "chatbot deployment enterprise lessons".toList,
   "AI code assistant production deployment".toList,
   "fraud detection ML production".toList,
   "AI agent deployment production".toList,
   "scaling machine learning production 2026".toList,
   "MLOps best practices production".toList,
   "AI infrastructure production case study".toList,
   "model performance production monitoring".toList,
   "multimodal AI deployment production".toList]

/-- Modelled from the documented behaviour of Python `random.sample`, which is
standard-library code not in this repository: any function returning, for
`0 ≤ k ≤ |pop|`, some list of `k` elements drawn from distinct positions of
`pop` (hence distinct values when `pop` has no duplicates), and raising
`ValueError` (modelled as `none`) otherwise. -/
structure Sampler where
  sample : List Str → Int → Option (List Str)
  length_spec : ∀ pop k out, sample pop k = some out → (out.length : Int) = k
  mem_spec : ∀ pop k out, sample pop k = some out → ∀ x ∈ out, x ∈ pop
  nodup_spec : ∀ pop k out, sample pop k = some out → pop.Nodup → out.Nodup
  total_spec : ∀ pop k, 0 ≤ k → k ≤ (pop.length : Int) → (sample pop k).isSome

/-- Lines 589-597 of main.py: `random.sample(SEARCH_QUERY_BANK,
min(num_queries, len(SEARCH_QUERY_BANK)))`. -/
def select_queries (sampler : Sampler) (num_queries : Int) : Option (List Str) :=
  sampler.sample SEARCH_QUERY_BANK (min num_queries (SEARCH_QUERY_BANK.length : Int))

/-- Lines 610-762 of main.py: the full multi-query pipeline.  A `.error`
result models an uncaught exception escaping `run_pipeline`. -/
def run_pipeline (sampler : Sampler) (env : Env) (num_queries : Int)
    (results_per_query : Nat) (min_quality : Int) : Except Str Stats :=
  match select_queries sampler num_queries with
  | none => .error "ValueError: sample larger than population or is negative".toList
  | some queries => processQueries env results_per_query min_quality initStats queries

/-- A concrete sampler (always picks the first `k` entries) satisfying the
`random.sample` contract; used to instantiate witnesses. -/
def takeSample (pop : List Str) (k : Int) : Option (List Str) :=
  if 0 ≤ k ∧ k ≤ (pop.length : Int) then some (pop.take k.toNat) else none

def takeSampler : Sampler where
  sample := takeSample
  length_spec := by
    intro pop k out h
    rw [takeSample] at h
    split at h
    · cases h
      rename_i hk
      rw [List.length_take]
      omega
    · cases h
  mem_spec := by
    intro pop k out h x hx
    rw [takeSample] at h
    split at h
    · cases h; exact List.mem_of_mem_take hx
    · cases h
  nodup_spec := by
    intro pop k out h hnd
    rw [takeSample] at h
    split at h
    · cases h; exact hnd.sublist (List.take_sublist _ _)
    · cases h
  total_spec := by
    intro pop k h1 h2
    rw [takeSample]
    simp [h1, h2]

/-- The record stored by the standalone `store_deployment` Modal function
(lines 541-555 of main.py), with its explicitly typed parameters. -/
structure DeploymentRecord where
  url : Str
  title : Str
  company : Option Str
  use_case : Option Str
  is_deployment_story : Bool
  confidence : Rat
  quality_score : Int
  deployment_stage : Option Str
  content_type : Option Str
  technology_stack : List Str
  results : List Str
  lessons_learned : List Str
  content_snippet : Str
deriving DecidableEq

/-- Modelled from the spec: the Supabase `deployments` table is external to
this repository; per the Deployment Store contract, upsert keyed by `url`
replaces an existing row entirely and otherwise appends. -/
def upsert (tbl : List DeploymentRecord) (r : DeploymentRecord) : List DeploymentRecord :=
  if tbl.any (fun x => x.url = r.url) then
    tbl.map (fun x => if x.url = r.url then r else x)
  else tbl ++ [r]

/-- Result dict of `store_deployment`. -/
structure StoreResult where
  success : Bool
  error : Option Str
  url : Option Str
deriving DecidableEq

/-- Lines 517-561 of main.py: the standalone store function.  `tbl` is the
modelled table state, `storeErr` is the oracle for a raised Supabase
exception; the function returns the result dict and the new table state. -/
def store_deployment (tbl : List DeploymentRecord) (storeErr : Option Str)
    (url : Str) (title : Str) (company : Option Str) (use_case : Option Str)
    (is_deployment_story : Bool) (confidence : Rat) (quality_score : Int)
    (deployment_stage : Option Str) (content_type : Option Str)
    (technology_stack : Option (List Str)) (results : Option (List Str))
    (lessons_learned : Option (List Str)) (content_snippet : Str) :
    StoreResult × List DeploymentRecord :=
  if url = [] then
    ({ success := false, error := some "No URL provided".toList, url := none }, tbl)
  else
    let record : DeploymentRecord :=
      { url := url
        title := title
        company := company
        use_case := use_case
        is_deployment_story := is_deployment_story
        confidence := confidence
        quality_score := quality_score
        deployment_stage := deployment_stage
        content_type := content_type
        technology_stack := technology_stack.getD []
        results := results.getD []
        lessons_learned := lessons_learned.getD []
        content_snippet := content_snippet.take 2000 }
    match storeErr with
    | some e => ({ success := false, error := some e, url := some url }, tbl)
    | none => ({ success := true, error := none, url := some url }, upsert tbl record)

def isStrJson : Json → Bool
  | .str _ => true
  | _ => false

def isStrArr : Json → Bool
  | .arr xs => xs.all isStrJson
  | _ => false

def isBoolJson : Json → Bool
  | .bool _ => true
  | _ => false

def isConfidenceVal : Json → Bool
  | .num q => decide ((0 : Rat) ≤ q) && decide (q ≤ 1)
  | _ => false

def isCompanyVal : Json → Bool
  | .null => true
  | .str _ => true
  | _ => false

def isStageVal : Json → Bool
  | .str s =>
      (s == "production".toList) || (s == "pilot".toList) || (s == "poc".toList) ||
        (s == "unknown".toList)
  | _ => false

def isCTypeVal : Json → Bool
  | .str s =>
      (s == "blog_post".toList) || (s == "case_study".toList) ||
        (s == "talk_transcript".toList) || (s == "interview".toList) || (s == "other".toList)
  | _ => false

def isQualityVal : Json → Bool
  | .num q => decide (q.den = 1) && decide ((1 : Int) ≤ q.num) && decide (q.num ≤ 10)
  | _ => false

def memberIs (ms : List (Str × Json)) (key : Str) (p : Json → Bool) : Bool :=
  match memberGet ms key with
  | some v => p v
  | none => false

/-- Modelled from the spec: the Evaluation schema of section 3 (field names,
types, enum domains and ranges), used to state which decoded JSON objects
"match the Evaluation schema". -/
def isEvalSchema : Json → Bool
  | .obj ms =>
      memberIs ms keyIsStory isBoolJson &&
      memberIs ms keyConfidence isConfidenceVal &&
      memberIs ms keyReason isStrJson &&
      memberIs ms keyCompany isCompanyVal &&
      memberIs ms keyUseCase isStrJson &&
      memberIs ms keyTech isStrArr &&
      memberIs ms keyResults isStrArr &&
      memberIs ms keyLessons isStrArr &&
      memberIs ms keyStage isStageVal &&
      memberIs ms keyCType isCTypeVal &&
      memberIs ms keyQuality isQualityVal
  | _ => false

/-- Accounting relation for one step of the hit loop: `searched` and the query
fields are untouched, the other counters advance by the given deltas, and the
error list grows by `err` at the end. -/
def StatsDelta (st st' : Stats) (df de ds : Nat) (err : List Str) : Prop :=
  st'.searched = st.searched ∧ st'.fetched = st.fetched + df ∧
  st'.evaluated = st.evaluated + de ∧ st'.stored = st.stored + ds ∧
  st'.errors = st.errors ++ err ∧ st'.queries_executed = st.queries_executed ∧
  st'.queries_used = st.queries_used

theorem StatsDelta.trans {st st' st'' : Stats} {df de ds df' de' ds' : Nat}
    {err err' : List Str} (h1 : StatsDelta st st' df de ds err)
    (h2 : StatsDelta st' st'' df' de' ds' err') :
    StatsDelta st st'' (df + df') (de + de') (ds + ds') (err ++ err') := by
  obtain ⟨a1, a2, a3, a4, a5, a6, a7⟩ := h1
  obtain ⟨b1, b2, b3, b4, b5, b6, b7⟩ := h2
  refine ⟨?_, ?_, ?_, ?_, ?_, ?_, ?_⟩ <;> simp_all <;> omega

theorem storeStage_ok {env : Env} {mq : Int} {st : Stats} {url title content : Str}
    {ev : Json} {st' : Stats}
    (h : storeStage env mq st url title content ev = .ok st') :
    ∃ ds err, ds ≤ 1 ∧ StatsDelta st st' 0 0 ds err := by
  unfold storeStage at h
  split at h
  · split at h
    · cases h
    · cases h
      exact ⟨0, [], by omega, by simp [StatsDelta]⟩
    · split at h
      · cases h
        exact ⟨1, [], by omega, by simp [StatsDelta, bumpStored]⟩
      · rename_i e _
        cases h
        exact ⟨0, [storageErrMsg url e], by omega, by simp [StatsDelta, addErr]⟩
  · cases h
    exact ⟨0, [], by omega, by simp [StatsDelta]⟩

theorem afterParse_ok {env : Env} {mq : Int} {st : Stats} {url title content : Str}
    {ev : Json} {st' : Stats}
    (h : afterParse env mq st url title content ev = .ok st') :
    ∃ ds err, ds ≤ 1 ∧ StatsDelta st st' 0 1 ds err := by
  have hbump : StatsDelta st (bumpEvaluated st) 0 1 0 [] := by
    simp [StatsDelta, bumpEvaluated]
  cases ev with
  | obj ms =>
      obtain ⟨ds, err, hds, hdel⟩ := storeStage_ok h
      exact ⟨ds, err, hds, by simpa using hbump.trans hdel⟩
  | null => cases h; exact ⟨0, [evalErrMsg url attrFailText], by omega,
      by simp [StatsDelta, addErr, bumpEvaluated]⟩
  | bool b => cases h; exact ⟨0, [evalErrMsg url attrFailText], by omega,
      by simp [StatsDelta, addErr, bumpEvaluated]⟩
  | num q => cases h; exact ⟨0, [evalErrMsg url attrFailText], by omega,
      by simp [StatsDelta, addErr, bumpEvaluated]⟩
  | str s => cases h; exact ⟨0, [evalErrMsg url attrFailText], by omega,
      by simp [StatsDelta, addErr, bumpEvaluated]⟩
  | arr xs => cases h; exact ⟨0, [evalErrMsg url attrFailText], by omega,
      by simp [StatsDelta, addErr, bumpEvaluated]⟩

theorem evalStage_ok {env : Env} {mq : Int} {st : Stats} {url title content : Str}
    {st' : Stats} (h : evalStage env mq st url title content = .ok st') :
    ∃ de ds err, de ≤ 1 ∧ ds ≤ de ∧ StatsDelta st st' 0 de ds err := by
  unfold evalStage at h
  split at h
  · cases h
    exact ⟨0, 0, [], by omega, by omega, by simp [StatsDelta]⟩
  · split at h
    · rename_i e _
      cases h
      exact ⟨0, 0, [evalErrMsg url e], by omega, by omega, by simp [StatsDelta, addErr]⟩
    · split at h
      · cases h
        exact ⟨0, 0, [evalErrMsg url jsonFailText], by omega, by omega,
          by simp [StatsDelta, addErr]⟩
      · obtain ⟨ds, err, hds, hdel⟩ := afterParse_ok h
        exact ⟨1, ds, err, by omega, by omega, hdel⟩

theorem processHit_ok {env : Env} {mq : Int} {st : Stats} {item : SearchItem}
    {st' : Stats} (h : processHit env mq st item = .ok st') :
    ∃ df de ds err, df ≤ 1 ∧ de ≤ df ∧ ds ≤ de ∧ StatsDelta st st' df de ds err := by
  unfold processHit at h
  split at h
  · rename_i e _
    cases h
    exact ⟨0, 0, 0, [fetchErrMsg item.url e], by omega, by omega, by omega,
      by simp [StatsDelta, addErr]⟩
  · have hbump : StatsDelta st (bumpFetched st) 1 0 0 [] := by
      simp [StatsDelta, bumpFetched]
    obtain ⟨de, ds, err, hde, hds, hdel⟩ := evalStage_ok h
    exact ⟨1, de, ds, err, by omega, hde, hds, by simpa using hbump.trans hdel⟩

theorem processHits_ok {env : Env} {mq : Int} :
    ∀ {l : List SearchItem} {st st' : Stats}, processHits env mq st l = .ok st' →
      ∃ df de ds err, df ≤ l.length ∧ de ≤ df ∧ ds ≤ de ∧ StatsDelta st st' df de ds err := by
  intro l
  induction l with
  | nil =>
      intro st st' h
      cases h
      exact ⟨0, 0, 0, [], by omega, by omega, by omega, by simp [StatsDelta]⟩
  | cons item rest ih =>
      intro st st' h
      rw [processHits] at h
      cases hx : processHit env mq st item with
      | error e => rw [hx] at h; cases h
      | ok st1 =>
          rw [hx] at h
          obtain ⟨df, de, ds, err, hdf, hde, hds, hdel⟩ := processHit_ok hx
          obtain ⟨df', de', ds', err', hdf', hde', hds', hdel'⟩ := ih h
          refine ⟨df + df', de + de', ds + ds', err ++ err', ?_, by omega, by omega,
            hdel.trans hdel'⟩
          simp only [List.length_cons]
          omega

theorem processQuery_ok {env : Env} {rpq : Nat} {mq : Int} {st : Stats} {q : Str}
    {st' : Stats} (h : processQuery env rpq mq st q = .ok st') :
    ∃ dsr df de ds err, df ≤ dsr ∧ de ≤ df ∧ ds ≤ de ∧
      st'.searched = st.searched + dsr ∧ st'.fetched = st.fetched + df ∧
      st'.evaluated = st.evaluated + de ∧ st'.stored = st.stored + ds ∧
      st'.errors = st.errors ++ err ∧
      st'.queries_executed = st.queries_executed + 1 ∧
      st'.queries_used = st.queries_used ++ [q] := by
  unfold processQuery at h
  split at h
  · rename_i e _
    cases h
    exact ⟨0, 0, 0, 0, [searchErrMsg q e], by omega, by omega, by omega, by simp [addErr],
      by simp [addErr], by simp [addErr], by simp [addErr], by simp [addErr], by simp [addErr],
      by simp [addErr]⟩
  · rename_i results _
    obtain ⟨df, de, ds, err, _, hde, hds, hdel⟩ := processHits_ok h
    obtain ⟨a1, a2, a3, a4, a5, a6, a7⟩ := hdel
    refine ⟨results.length, df, de, ds, err, ?_, hde, hds, ?_, ?_, ?_, ?_, ?_, ?_, ?_⟩ <;>
      simp_all <;> omega

theorem processQueries_ok {env : Env} {rpq : Nat} {mq : Int} :
    ∀ {l : List Str} {st st' : Stats}, processQueries env rpq mq st l = .ok st' →
      ∃ dsr df de ds err, df ≤ dsr ∧ de ≤ df ∧ ds ≤ de ∧
        st'.searched = st.searched + dsr ∧ st'.fetched = st.fetched + df ∧
        st'.evaluated = st.evaluated + de ∧ st'.stored = st.stored + ds ∧
        st'.errors = st.errors ++ err ∧
        st'.queries_executed = st.queries_executed + l.length ∧
        st'.queries_used = st.queries_used ++ l := by
  intro l
  induction l with
  | nil =>
      intro st st' h
      cases h
      exact ⟨0, 0, 0, 0, [], by omega, by omega, by omega, by omega, by omega, by omega,
        by omega, by simp, by simp, by simp⟩
  | cons q rest ih =>
      intro st st' h
      rw [processQueries] at h
      cases hx : processQuery env rpq mq st q with
      | error e => rw [hx] at h; cases h
      | ok st1 =>
          rw [hx] at h
          obtain ⟨dsr, df, de, ds, err, h1, h2, h3, a1, a2, a3, a4, a5, a6, a7⟩ :=
            processQuery_ok hx
          obtain ⟨dsr', df', de', ds', err', h1', h2', h3', b1, b2, b3, b4, b5, b6, b7⟩ := ih h
          refine ⟨dsr + dsr', df + df', de + de', ds + ds', err ++ err', by omega, by omega,
            by omega, by omega, by omega, by omega, by omega, ?_, ?_, ?_⟩
          · rw [b5, a5, List.append_assoc]
          · simp only [List.length_cons]; omega
          · rw [b7, a7, List.append_assoc]; simp

/-- Claim C2: for every completed run of the pipeline, the returned report's
counters satisfy `stored ≤ evaluated ≤ fetched ≤ searched`. -/
theorem C2_counter_chain (sampler : Sampler) (env : Env) (num_queries : Int)
    (results_per_query : Nat) (min_quality : Int) (stats : Stats)
    (h : run_pipeline sampler env num_queries results_per_query min_quality = .ok stats) :
    stats.stored ≤ stats.evaluated ∧ stats.evaluated ≤ stats.fetched ∧
      stats.fetched ≤ stats.searched := by
  unfold run_pipeline at h
  split at h
  · cases h
  · obtain ⟨dsr, df, de, ds, err, h1, h2, h3, a1, a2, a3, a4, a5, a6, a7⟩ :=
      processQueries_ok h
    simp only [initStats] at a1 a2 a3 a4
    omega

/-- An environment in which every remote call fails; used to instantiate
witnesses on runs whose search calls all fail. -/
def envFail : Env :=
  { search := fun _ _ => .err "boom".toList
    fetch := fun _ => .err "down".toList
    evaluate := fun _ _ _ => .err "down".toList
    store := fun _ => .err "down".toList }

/-- The report of the concrete all-search-failing run used by witnesses. -/
def statsFail : Stats :=
  match run_pipeline takeSampler envFail 3 10 3 with
  | .ok st => st
  | .error _ => initStats

/-- Witness for C2 at a concrete run. -/
theorem C2_counter_chain_witness :
    statsFail.stored ≤ statsFail.evaluated ∧ statsFail.evaluated ≤ statsFail.fetched ∧
      statsFail.fetched ≤ statsFail.searched :=
  C2_counter_chain takeSampler envFail 3 10 3 statsFail rfl

/-- The query bank has no duplicate entries. -/
theorem bank_nodup : SEARCH_QUERY_BANK.Nodup := by decide

/-- Claim C9: every completed run reports `queries_executed` equal to the
length of `queries_used`, both equal to `min(num_queries, |bank|)`, and the
used queries are distinct entries of the bank — even when every search call
fails. -/
theorem C9_queries_report (sampler : Sampler) (env : Env) (num_queries : Int)
    (results_per_query : Nat) (min_quality : Int) (stats : Stats)
    (h0 : 0 ≤ num_queries)
    (h : run_pipeline sampler env num_queries results_per_query min_quality = .ok stats) :
    (stats.queries_executed : Int) = min num_queries (SEARCH_QUERY_BANK.length : Int) ∧
      stats.queries_used.length = stats.queries_executed ∧
      stats.queries_used.Nodup ∧
      ∀ q ∈ stats.queries_used, q ∈ SEARCH_QUERY_BANK := by
  unfold run_pipeline at h
  split at h
  · cases h
  · rename_i queries hq
    unfold select_queries at hq
    obtain ⟨dsr, df, de, ds, err, h1, h2, h3, b1, b2, b3, b4, b5, b6, b7⟩ :=
      processQueries_ok h
    have hlen := sampler.length_spec _ _ _ hq
    have hmem := sampler.mem_spec _ _ _ hq
    have hnd := sampler.nodup_spec _ _ _ hq bank_nodup
    simp only [initStats, List.nil_append] at b6 b7
    have b6' : stats.queries_executed = queries.length := by omega
    refine ⟨?_, ?_, ?_, ?_⟩
    · rw [b6']; exact hlen
    · rw [b7, b6']
    · rw [b7]; exact hnd
    · rw [b7]; exact hmem

/-- Witness for C9 at a concrete run in which every search call fails. -/
theorem C9_queries_report_witness :
    (statsFail.queries_executed : Int) = min 3 (SEARCH_QUERY_BANK.length : Int) ∧
      statsFail.queries_used.length = statsFail.queries_executed ∧
      statsFail.queries_used.Nodup ∧
      ∀ q ∈ statsFail.queries_used, q ∈ SEARCH_QUERY_BANK :=
  C9_queries_report takeSampler envFail 3 10 3 statsFail (by decide) rfl

/-- Claim C3: once a hit's evaluation has been parsed to a dict with a boolean
`is_deployment_story` and numeric `quality_score`, the upsert is attempted
exactly when the flag is true and the score reaches `min_quality`; otherwise
the hit is skipped with no error; on an attempted upsert, `stored` is bumped
exactly on success and a per-URL storage error is recorded on failure. -/
theorem C3_store_decision (env : Env) (mq : Int) (st : Stats) (item : SearchItem)
    (md : Option Str) (mt : Option (Option Str)) (raw : Str) (ms : List (Str × Json))
    (b : Bool) (q : Rat)
    (hf : env.fetch item.url = .ok md mt)
    (hlen : 300 ≤ (md.getD []).length)
    (he : env.evaluate item.url (resolveTitle item.title mt) ((md.getD []).take 12000) =
      .resp raw)
    (hp : handleResponse raw = some (.obj ms))
    (hb : dictGetD (.obj ms) keyIsStory (Json.bool false) = .bool b)
    (hq : dictGetD (.obj ms) keyQuality (Json.num 0) = .num q) :
    (b = true → (mq : Rat) ≤ q →
      (env.store (buildRecord item.url (resolveTitle item.title mt) (md.getD [])
          (.obj ms) (.num q)) = .ok →
        processHit env mq st item = .ok (bumpStored (bumpEvaluated (bumpFetched st)))) ∧
      (∀ e, env.store (buildRecord item.url (resolveTitle item.title mt) (md.getD [])
          (.obj ms) (.num q)) = .err e →
        processHit env mq st item =
          .ok (addErr (bumpEvaluated (bumpFetched st)) (storageErrMsg item.url e)))) ∧
    ((b = false ∨ q < (mq : Rat)) →
      processHit env mq st item = .ok (bumpEvaluated (bumpFetched st))) := by
  have h300 : ¬((md.getD []).length < 300) := by omega
  have key : processHit env mq st item =
      storeStage env mq (bumpEvaluated (bumpFetched st)) item.url
        (resolveTitle item.title mt) (md.getD []) (.obj ms) := by
    simp only [processHit, hf, evalStage, h300, if_false, he, hp, afterParse]
  refine ⟨?_, ?_⟩
  · intro hbt hge
    subst hbt
    constructor
    · intro hstore
      rw [key]
      unfold storeStage
      rw [hb, hq]
      simp only [truthy, if_true]
      have : pyGe (Json.num q) mq = some true := by
        simp [pyGe, hge]
      rw [this, hstore]
    · intro e hstore
      rw [key]
      unfold storeStage
      rw [hb, hq]
      simp only [truthy, if_true]
      have : pyGe (Json.num q) mq = some true := by
        simp [pyGe, hge]
      rw [this, hstore]
  · intro hskip
    rw [key]
    unfold storeStage
    rw [hb, hq]
    rcases hskip with hbf | hlt
    · subst hbf
      simp [truthy]
    · have hnb : pyGe (Json.num q) mq = some false := by
        simp only [pyGe]
        have : ¬((mq : Rat) ≤ q) := not_le.mpr hlt
        simp [this]
      cases b with
      | false => simp [truthy]
      | true => simp only [truthy, if_true]; rw [hnb]

/-- A minimal evaluator response: a qualifying story of quality 7. -/
def okResp7 : Str :=
  "\x7b\"is_deployment_story\": true, \"quality_score\": 7\x7d".toList

/-- The parsed members of `okResp7`. -/
def okResp7Members : List (Str × Json) := [(keyIsStory, Json.bool true), (keyQuality, Json.num 7)]

/-- The query used in the concrete end-to-end scenario. -/
def q7 : Str := "query one".toList

/-- Environment for the end-to-end scenario: one query yields two hits, the
first fails fetch, the second succeeds with 500 characters that evaluate to a
qualifying story of quality 7, and storage succeeds. -/
def env7 : Env :=
  { search := fun _ _ => .ok [{ title := "T1".toList, url := "u1".toList },
                              { title := "T2".toList, url := "u2".toList }]
    fetch := fun u => if u = "u1".toList then .err "timeout".toList
                      else .ok (some (List.replicate 500 'a')) none
    evaluate := fun _ _ _ => .resp okResp7
    store := fun _ => .ok }

set_option maxRecDepth 40000 in
/-- The minimal evaluator response parses to its member list. -/
theorem okResp7_parses : handleResponse okResp7 = some (Json.obj okResp7Members) := by rfl

set_option maxRecDepth 40000 in
/-- Witness for C3: in the concrete scenario environment the qualifying hit is
upserted and `stored` is bumped. -/
theorem C3_store_decision_witness :
    processHit env7 5 initStats { title := "T2".toList, url := "u2".toList } =
      .ok (bumpStored (bumpEvaluated (bumpFetched initStats))) :=
  ((C3_store_decision env7 5 initStats { title := "T2".toList, url := "u2".toList }
    (some (List.replicate 500 'a')) none okResp7 okResp7Members true 7
    rfl (by simp) rfl okResp7_parses rfl rfl).1 rfl (by norm_num)).1 rfl

/-- Claim C4: a fetched hit whose content is shorter than 300 characters is
skipped silently: the hit contributes exactly the `fetched` bump, no error and
no evaluation, and the outcome is the same for arbitrary evaluator and store
oracles (no evaluator call is made). -/
theorem C4_short_content (env : Env) (mq : Int) (st : Stats) (item : SearchItem)
    (md : Option Str) (mt : Option (Option Str))
    (hf : env.fetch item.url = .ok md mt)
    (hlen : (md.getD []).length < 300) :
    processHit env mq st item = .ok (bumpFetched st) ∧
    ∀ ev' store',
      processHit { env with evaluate := ev', store := store' } mq st item =
        .ok (bumpFetched st) := by
  constructor
  · simp only [processHit, hf, evalStage, if_pos hlen]
  · intro ev' store'
    simp only [processHit, hf, evalStage, if_pos hlen]

/-- Environment whose fetches return 100-character content. -/
def envShort : Env :=
  { search := fun _ _ => .ok []
    fetch := fun _ => .ok (some (List.replicate 100 'a')) none
    evaluate := fun _ _ _ => .err "never called".toList
    store := fun _ => .err "never called".toList }

/-- Witness for C4 at a concrete short-content fetch. -/
theorem C4_short_content_witness :
    processHit envShort 3 initStats { title := "T".toList, url := "u".toList } =
      .ok (bumpFetched initStats) ∧
    ∀ ev' store',
      processHit { envShort with evaluate := ev', store := store' } 3 initStats
          { title := "T".toList, url := "u".toList } =
        .ok (bumpFetched initStats) :=
  C4_short_content envShort 3 initStats { title := "T".toList, url := "u".toList }
    (some (List.replicate 100 'a')) none rfl (by simp)

/-- Claim C6: for `k` larger than the bank, `select_queries` returns exactly
`|bank|` distinct bank entries without raising; in general, for `0 ≤ k`, it
returns `min(k, |bank|)` distinct bank entries. -/
theorem C6_select_queries_clamped (sampler : Sampler) (k : Int) :
    ((SEARCH_QUERY_BANK.length : Int) < k →
      ∃ out, select_queries sampler k = some out ∧ out.length = SEARCH_QUERY_BANK.length ∧
        out.Nodup ∧ ∀ x ∈ out, x ∈ SEARCH_QUERY_BANK) ∧
    (0 ≤ k →
      ∃ out, select_queries sampler k = some out ∧
        (out.length : Int) = min k (SEARCH_QUERY_BANK.length : Int) ∧
        out.Nodup ∧ ∀ x ∈ out, x ∈ SEARCH_QUERY_BANK) := by
  have hsome : 0 ≤ k → (select_queries sampler k).isSome := by
    intro hk
    unfold select_queries
    refine sampler.total_spec _ _ ?_ ?_
    · omega
    · omega
  constructor
  · intro hk
    obtain ⟨out, hout⟩ := Option.isSome_iff_exists.mp (hsome (by omega))
    have hlen := sampler.length_spec _ _ _ hout
    have hmin : min k (SEARCH_QUERY_BANK.length : Int) = (SEARCH_QUERY_BANK.length : Int) := by
      omega
    rw [hmin] at hlen
    exact ⟨out, hout, by omega, sampler.nodup_spec _ _ _ hout bank_nodup,
      sampler.mem_spec _ _ _ hout⟩
  · intro hk
    obtain ⟨out, hout⟩ := Option.isSome_iff_exists.mp (hsome hk)
    exact ⟨out, hout, sampler.length_spec _ _ _ hout,
      sampler.nodup_spec _ _ _ hout bank_nodup, sampler.mem_spec _ _ _ hout⟩

/-- Witness for C6 with the take-first sampler and `k = 31 > 30`. -/
theorem C6_select_queries_clamped_witness :
    ∃ out, select_queries takeSampler 31 = some out ∧ out.length = SEARCH_QUERY_BANK.length ∧
      out.Nodup ∧ ∀ x ∈ out, x ∈ SEARCH_QUERY_BANK :=
  (C6_select_queries_clamped takeSampler 31).1 (by decide)

/-- A five-query bank for the end-to-end selection scenario. -/
def bank5 : List Str :=
  ["query a".toList, "query b".toList, "query c".toList, "query d".toList, "query e".toList]

set_option maxRecDepth 400000 in
/-- Claim C7: with a five-query bank and `k = 3` the selector picks exactly 3
distinct bank entries, and the concrete one-query scenario (two hits, one
failed fetch, one 500-character hit evaluating to a quality-7 story, threshold
5) yields searched=2, fetched=1, evaluated=1, stored=1 and exactly the one
fetch error. -/
theorem C7_end_to_end (sampler : Sampler) (bank : List Str)
    (hnd : bank.Nodup) (hlen : bank.length = 5) :
    (∃ out, sampler.sample bank 3 = some out ∧ out.length = 3 ∧ out.Nodup ∧
      ∀ x ∈ out, x ∈ bank) ∧
    processQuery env7 10 5 initStats q7 =
      .ok { queries_executed := 1, searched := 2, fetched := 1, evaluated := 1, stored := 1,
            errors := [fetchErrMsg "u1".toList "timeout".toList], queries_used := [q7] } := by
  constructor
  · have hsome : (sampler.sample bank 3).isSome := by
      refine sampler.total_spec _ _ (by omega) (by rw [hlen]; omega)
    obtain ⟨out, hout⟩ := Option.isSome_iff_exists.mp hsome
    have hl := sampler.length_spec _ _ _ hout
    exact ⟨out, hout, by omega, sampler.nodup_spec _ _ _ hout hnd,
      sampler.mem_spec _ _ _ hout⟩
  · rfl

/-- Witness for C7 with the take-first sampler and the concrete bank. -/
theorem C7_end_to_end_witness :
    (∃ out, takeSampler.sample bank5 3 = some out ∧ out.length = 3 ∧ out.Nodup ∧
      ∀ x ∈ out, x ∈ bank5) ∧
    processQuery env7 10 5 initStats q7 =
      .ok { queries_executed := 1, searched := 2, fetched := 1, evaluated := 1, stored := 1,
            errors := [fetchErrMsg "u1".toList "timeout".toList], queries_used := [q7] } :=
  C7_end_to_end takeSampler bank5 (by decide) (by decide)

/-- A well-formed JSON evaluator response whose quality score is a string. -/
def badQualityResp : Str :=
  "\x7b\"is_deployment_story\": true, \"quality_score\": \"high\"\x7d".toList

/-- Environment reproducing the C1 failure: every search yields one hit, every
fetch succeeds with 400 characters, and the evaluator answers with
`badQualityResp`. -/
def envBug : Env :=
  { search := fun _ _ => .ok [{ title := "T".toList, url := "u1".toList }]
    fetch := fun _ => .ok (some (List.replicate 400 'a')) none
    evaluate := fun _ _ _ => .resp badQualityResp
    store := fun _ => .ok }

set_option maxRecDepth 400000 in
/-- Claim C1 (code bug): a malformed evaluator response — valid JSON whose
`is_deployment_story` is truthy but whose `quality_score` is not a number —
makes the line-740 comparison raise an uncaught TypeError, aborting the whole
two-query batch instead of recording an error and continuing; the response
itself decodes to a dict, so the per-hit try/except does not catch it. -/
theorem C1_uncaught_type_error :
    run_pipeline takeSampler envBug 2 10 3 = .error typeErrorMsg ∧
    (∃ ms, jsonLoads badQualityResp = some (.obj ms)) :=
  ⟨rfl, ⟨_, rfl⟩⟩

/-- Claim C10: `store_deployment` called with an empty (falsy) URL returns a
failure dict and performs no store operation: the table state is returned
unchanged, whatever the store oracle would have done. -/
theorem C10_empty_url (tbl : List DeploymentRecord) (storeErr : Option Str)
    (title : Str) (company use_case : Option Str) (is_deployment_story : Bool)
    (confidence : Rat) (quality_score : Int) (deployment_stage content_type : Option Str)
    (technology_stack results lessons_learned : Option (List Str)) (content_snippet : Str) :
    store_deployment tbl storeErr [] title company use_case is_deployment_story confidence
        quality_score deployment_stage content_type technology_stack results lessons_learned
        content_snippet =
      ({ success := false, error := some "No URL provided".toList, url := none }, tbl) := by
  rfl

theorem countP_url_eq_one {u : Str} :
    ∀ tbl : List DeploymentRecord, (tbl.map (fun x => x.url)).Nodup →
      tbl.any (fun x => x.url = u) = true →
      tbl.countP (fun x => x.url = u) = 1 := by
  intro tbl
  induction tbl with
  | nil => intro _ hany; simp at hany
  | cons x rest ih =>
      intro hnd hany
      rw [List.map_cons, List.nodup_cons] at hnd
      rw [List.countP_cons]
      by_cases hx : x.url = u
      · have hrest : rest.countP (fun y => y.url = u) = 0 := by
          rw [List.countP_eq_zero]
          intro y hy
          simp only [decide_eq_true_eq]
          intro hyu
          exact hnd.1 (List.mem_map.mpr ⟨y, hy, by rw [hyu, hx]⟩)
        simp [hrest, hx]
      · have hany' : rest.any (fun y => y.url = u) = true := by
          rcases List.any_eq_true.mp hany with ⟨y, hy, hyu⟩
          rcases List.mem_cons.mp hy with rfl | hy'
          · simp [hx] at hyu
          · exact List.any_eq_true.mpr ⟨y, hy', hyu⟩
        simp [ih hnd.2 hany', hx]

/-- Claim C8: upsert is idempotent — a second upsert of the identical record
changes nothing, and after one upsert the table holds exactly one row for that
URL, carrying the latest values. -/
theorem C8_upsert_idempotent (tbl : List DeploymentRecord) (r : DeploymentRecord)
    (h : (tbl.map (fun x => x.url)).Nodup) :
    upsert (upsert tbl r) r = upsert tbl r ∧
    (upsert tbl r).countP (fun x => x.url = r.url) = 1 ∧
    ∀ x ∈ upsert tbl r, x.url = r.url → x = r := by
  by_cases ha : tbl.any (fun x => x.url = r.url) = true
  · have h1 : upsert tbl r = tbl.map (fun x => if x.url = r.url then r else x) := by
      simp [upsert, ha]
    have hmem : ∀ x ∈ upsert tbl r, x.url = r.url → x = r := by
      rw [h1]
      intro x hx hxu
      rcases List.mem_map.mp hx with ⟨y, _, rfl⟩
      by_cases hy : y.url = r.url
      · simp [hy]
      · simp only [if_neg hy] at hxu ⊢
        exact absurd hxu hy
    refine ⟨?_, ?_, hmem⟩
    · have ha2 : (upsert tbl r).any (fun x => x.url = r.url) = true := by
        rcases List.any_eq_true.mp ha with ⟨y, hy, hyu⟩
        refine List.any_eq_true.mpr ⟨r, ?_, by simp⟩
        rw [h1]
        refine List.mem_map.mpr ⟨y, hy, ?_⟩
        simp only [decide_eq_true_eq] at hyu
        simp [hyu]
      conv_lhs => rw [upsert]
      rw [if_pos ha2]
      conv_lhs => rw [h1]
      rw [List.map_map]
      conv_rhs => rw [h1]
      refine List.map_congr_left ?_
      intro x _
      by_cases hx : x.url = r.url <;> simp [hx]
    · rw [h1, List.countP_map]
      have hcc : tbl.countP
            ((fun y => decide (y.url = r.url)) ∘ fun y => if y.url = r.url then r else y) =
          tbl.countP (fun x => decide (x.url = r.url)) := by
        refine List.countP_congr ?_
        intro x _
        by_cases hx : x.url = r.url <;> simp [hx]
      rw [hcc]
      exact countP_url_eq_one tbl h ha
  · have hall : ∀ x ∈ tbl, ¬(x.url = r.url) := by
      intro x hx hxu
      exact ha (List.any_eq_true.mpr ⟨x, hx, by simp [hxu]⟩)
    have h1 : upsert tbl r = tbl ++ [r] := by
      simp only [upsert]
      rw [if_neg ha]
    refine ⟨?_, ?_, ?_⟩
    · have ha2 : (tbl ++ [r]).any (fun x => x.url = r.url) = true := by
        refine List.any_eq_true.mpr ⟨r, by simp, by simp⟩
      rw [h1]
      conv_lhs => rw [upsert]
      rw [if_pos ha2, List.map_append]
      have hmt : tbl.map (fun x => if x.url = r.url then r else x) = tbl := by
        conv_rhs => rw [← List.map_id tbl]
        refine List.map_congr_left ?_
        intro x hx
        simp [hall x hx]
      rw [hmt]
      simp
    · rw [h1, List.countP_append]
      have h0 : tbl.countP (fun x => x.url = r.url) = 0 := by
        rw [List.countP_eq_zero]
        intro x hx
        simp only [decide_eq_true_eq]
        exact hall x hx
      simp [h0]
    · rw [h1]
      intro x hx hxu
      rcases List.mem_append.mp hx with hx' | hx'
      · exact absurd hxu (hall x hx')
      · simpa using hx'

/-- A concrete record for the C8 witness. -/
def r0 : DeploymentRecord :=
  { url := "u".toList, title := "t".toList, company := none, use_case := none,
    is_deployment_story := true, confidence := 1, quality_score := 7,
    deployment_stage := none, content_type := none, technology_stack := [],
    results := [], lessons_learned := [], content_snippet := [] }

/-- Witness for C8 on the empty table. -/
theorem C8_upsert_idempotent_witness :
    upsert (upsert [] r0) r0 = upsert [] r0 ∧
    (upsert [] r0).countP (fun x => x.url = r0.url) = 1 ∧
    ∀ x ∈ upsert [] r0, x.url = r0.url → x = r0 :=
  C8_upsert_idempotent [] r0 (by simp)

def lbraceChar : Char := Char.ofNat 123

def rbraceChar : Char := Char.ofNat 125

theorem backtick3_eq : backtick3 = btChar :: [btChar, btChar] := rfl

theorem jsonTag_eq : jsonTag = 'j' :: ['s', 'o', 'n'] := rfl

theorem splitFirst_nil (sep : Str) : splitFirst sep [] = none := rfl

theorem splitFirst_none_of_no_head {c0 : Char} {s0 : Str} :
    ∀ {l : Str}, (∀ a ∈ l, a ≠ c0) → splitFirst (c0 :: s0) l = none := by
  intro l
  induction l with
  | nil => intro _; rfl
  | cons c rest ih =>
      intro h
      have hc : c ≠ c0 := h c (List.mem_cons_self c rest)
      have hp : ¬((c0 :: s0).isPrefixOf (c :: rest) = true) := by
        rw [List.isPrefixOf_iff_prefix, List.cons_prefix_cons]
        rintro ⟨h1, -⟩
        exact hc h1.symm
      rw [splitFirst, if_neg hp]
      simp only [ih (fun a ha => h a (List.mem_cons_of_mem _ ha))]

theorem splitFirst_sep_append (c0 : Char) (s0 x : Str) :
    splitFirst (c0 :: s0) ((c0 :: s0) ++ x) = some ([], x) := by
  have hp : (c0 :: s0).isPrefixOf (c0 :: (s0 ++ x)) = true := by
    rw [List.isPrefixOf_iff_prefix, List.cons_prefix_cons]
    exact ⟨rfl, List.prefix_append _ _⟩
  rw [List.cons_append, splitFirst, if_pos hp]
  simp [List.drop_left]

theorem splitFirst_append_sep {c0 : Char} {s0 : Str} :
    ∀ {j : Str} (t : Str), (∀ a ∈ j, a ≠ c0) →
      splitFirst (c0 :: s0) (j ++ (c0 :: s0) ++ t) = some (j, t) := by
  intro j
  induction j with
  | nil => intro t _; simpa using splitFirst_sep_append c0 s0 t
  | cons a j' ih =>
      intro t h
      have ha : a ≠ c0 := h a (List.mem_cons_self a j')
      have hp : ¬((c0 :: s0).isPrefixOf (a :: (j' ++ (c0 :: s0) ++ t)) = true) := by
        rw [List.isPrefixOf_iff_prefix, List.cons_prefix_cons]
        rintro ⟨h1, -⟩
        exact ha h1.symm
      have hrw : (a :: j') ++ (c0 :: s0) ++ t = a :: (j' ++ (c0 :: s0) ++ t) := by
        simp
      rw [hrw, splitFirst, if_neg hp]
      simp only [ih t (fun b hb => h b (List.mem_cons_of_mem _ hb))]

theorem splitFirst_append_last_none {c0 : Char} {s0 : Str} {c : Char} (hc : c ∉ c0 :: s0) :
    ∀ {l : Str}, splitFirst (c0 :: s0) l = none → splitFirst (c0 :: s0) (l ++ [c]) = none := by
  intro l
  induction l with
  | nil =>
      intro _
      have hp : ¬((c0 :: s0).isPrefixOf [c] = true) := by
        rw [List.isPrefixOf_iff_prefix]
        intro hpre
        rcases List.cons_prefix_cons.mp hpre with ⟨h1, -⟩
        exact hc (h1 ▸ List.mem_cons_self c0 s0)
      rw [List.nil_append]
      rw [splitFirst, if_neg hp]
      rfl
  | cons a l' ih =>
      intro h
      rw [splitFirst] at h
      by_cases hp : (c0 :: s0).isPrefixOf (a :: l') = true
      · rw [if_pos hp] at h
        cases h
      · rw [if_neg hp] at h
        have hl' : splitFirst (c0 :: s0) l' = none := by
          cases hx : splitFirst (c0 :: s0) l' with
          | none => rfl
          | some pp =>
              rw [hx] at h
              cases pp with
              | mk u w => cases h
        have hp2 : ¬((c0 :: s0).isPrefixOf (a :: (l' ++ [c])) = true) := by
          rw [List.isPrefixOf_iff_prefix, List.cons_prefix_cons]
          rintro ⟨h1, hpre⟩
          rcases List.prefix_concat_iff.mp hpre with heq | hpre'
          · apply hc
            rw [List.mem_cons]
            right
            rw [heq]
            exact List.mem_append_right _ (List.mem_singleton.mpr rfl)
          · exact hp (by
              rw [List.isPrefixOf_iff_prefix, List.cons_prefix_cons]
              exact ⟨h1, hpre'⟩)
        rw [List.cons_append, splitFirst, if_neg hp2]
        simp only [ih hl']

theorem splitFirst_cons_none {c0 : Char} {s0 : Str} {c : Char} {l : Str}
    (hne : c ≠ c0) (h : splitFirst (c0 :: s0) l = none) :
    splitFirst (c0 :: s0) (c :: l) = none := by
  have hp : ¬((c0 :: s0).isPrefixOf (c :: l) = true) := by
    rw [List.isPrefixOf_iff_prefix, List.cons_prefix_cons]
    rintro ⟨h1, -⟩
    exact hne h1.symm
  rw [splitFirst, if_neg hp]
  simp only [h]

theorem pyStrip_cons_append {a b : Char} (mid : Str) (ha : pyWs a = false)
    (hb : pyWs b = false) : pyStrip (a :: (mid ++ [b])) = a :: (mid ++ [b]) := by
  unfold pyStrip
  rw [List.dropWhile_cons, if_neg (by simp [ha])]
  have hrev : (a :: (mid ++ [b])).reverse = b :: (mid.reverse ++ [a]) := by simp
  rw [hrev, List.dropWhile_cons, if_neg (by simp [hb]), ← hrev, List.reverse_reverse]

theorem pyStrip_ws_wrap {a b w1 w2 : Char} (mid : Str) (ha : pyWs a = false)
    (hb : pyWs b = false) (hw1 : pyWs w1 = true) (hw2 : pyWs w2 = true) :
    pyStrip (w1 :: ((a :: (mid ++ [b])) ++ [w2])) = a :: (mid ++ [b]) := by
  unfold pyStrip
  rw [List.dropWhile_cons, if_pos (by simp [hw1]), List.cons_append, List.dropWhile_cons,
    if_neg (by simp [ha])]
  have hrev : (a :: ((mid ++ [b]) ++ [w2])).reverse = w2 :: (b :: (mid.reverse ++ [a])) := by
    simp
  rw [hrev, List.dropWhile_cons, if_pos (by simp [hw2]), List.dropWhile_cons,
    if_neg (by simp [hb])]
  simp

theorem stripFences_eq (raw : Str) :
    stripFences raw =
      if containsFence (pyStrip raw) then
        pyStrip (pyReplaceNE 'j' ['s', 'o', 'n'] []
          ((pySplitNE btChar [btChar, btChar] (pyStrip raw)).getD 1 []))
      else pyStrip raw := rfl

theorem pySplitNE_fence (body : Str) (hnb : ∀ a ∈ body, a ≠ btChar) :
    pySplitNE btChar [btChar, btChar] (backtick3 ++ (body ++ backtick3)) = [[], body, []] := by
  have h1 : splitFirst (btChar :: [btChar, btChar]) (backtick3 ++ (body ++ backtick3)) =
      some ([], body ++ backtick3) := by
    rw [backtick3_eq]
    exact splitFirst_sep_append btChar [btChar, btChar] (body ++ backtick3)
  have h2 : splitFirst (btChar :: [btChar, btChar]) (body ++ backtick3) = some (body, []) := by
    have e : body ++ backtick3 = body ++ (btChar :: [btChar, btChar]) ++ [] := by
      rw [backtick3_eq]
      simp
    rw [e]
    exact splitFirst_append_sep [] hnb
  have hlen : (backtick3 ++ (body ++ backtick3)).length + 1 = (body.length + 6) + 1 := by
    simp [backtick3]
  rw [pySplitNE, hlen, pySplitFuel_some h1,
    show body.length + 6 = (body.length + 5) + 1 from rfl, pySplitFuel_some h2,
    show body.length + 5 = (body.length + 4) + 1 from rfl,
    pySplitFuel_none (splitFirst_nil (btChar :: [btChar, btChar]))]

theorem stripFences_fenced (body : Str) (hnb : ∀ a ∈ body, a ≠ btChar) :
    stripFences (backtick3 ++ (body ++ backtick3)) =
      pyStrip (pyReplaceNE 'j' ['s', 'o', 'n'] [] body) := by
  have hshapeW : backtick3 ++ (body ++ backtick3) =
      btChar :: ((btChar :: btChar :: (body ++ [btChar, btChar])) ++ [btChar]) := by
    simp [backtick3]
  have hsw : pyStrip (backtick3 ++ (body ++ backtick3)) = backtick3 ++ (body ++ backtick3) := by
    rw [hshapeW]
    exact pyStrip_cons_append _ (by decide) (by decide)
  have h1 : splitFirst backtick3 (backtick3 ++ (body ++ backtick3)) =
      some ([], body ++ backtick3) := by
    rw [backtick3_eq]
    exact splitFirst_sep_append btChar [btChar, btChar] (body ++ backtick3)
  have hcf : containsFence (backtick3 ++ (body ++ backtick3)) = true := by
    rw [containsFence, h1]
    rfl
  rw [stripFences_eq, hsw, hcf, if_pos rfl]
  rw [show pySplitNE btChar [btChar, btChar] (backtick3 ++ (body ++ backtick3)) =
    [[], body, []] from pySplitNE_fence body hnb]
  rfl

theorem pyReplaceNE_no_occur {c0 : Char} {s0 rep l : Str}
    (h : splitFirst (c0 :: s0) l = none) : pyReplaceNE c0 s0 rep l = l := by
  rw [pyReplaceNE]
  exact pyReplaceFuel_none h

theorem pyReplaceNE_strip_tag (Z : Str) (hz : splitFirst jsonTag Z = none) :
    pyReplaceNE 'j' ['s', 'o', 'n'] [] (jsonTag ++ Z) = Z := by
  have hlen : (jsonTag ++ Z).length + 1 = (Z.length + 4) + 1 := by
    simp [jsonTag]
  have h1 : splitFirst ('j' :: ['s', 'o', 'n']) (jsonTag ++ Z) = some ([], Z) :=
    splitFirst_sep_append 'j' ['s', 'o', 'n'] Z
  have hz' : splitFirst ('j' :: ['s', 'o', 'n']) Z = none := by
    rw [← jsonTag_eq]
    exact hz
  rw [pyReplaceNE, hlen, pyReplaceFuel_some h1,
    show Z.length + 4 = (Z.length + 3) + 1 from rfl, pyReplaceFuel_none hz']
  simp

/-- Claim C5 (amended): an evaluator response that is one schema-matching JSON
object — provided its text contains no backquote character and no occurrence
of the substring `json` (the code's fence handling splits on any ``` and
deletes every `json`) — is parsed to that object by the response handling,
bare or wrapped in plain or `json`-tagged triple-backquote fences; and a
response whose remainder fails to decode as JSON, or decodes to a non-dict,
yields a recorded per-URL evaluation error. -/
theorem C5_response_handling :
    (∀ (j inner : Str) (v : Json),
      j = lbraceChar :: (inner ++ [rbraceChar]) →
      jsonLoads j = some v → isEvalSchema v = true →
      (∀ a ∈ j, a ≠ btChar) → splitFirst jsonTag j = none →
      handleResponse j = some v ∧
      handleResponse (backtick3 ++ (j ++ backtick3)) = some v ∧
      handleResponse (backtick3 ++ (jsonTag ++ '\n' :: (j ++ '\n' :: backtick3))) = some v) ∧
    (∀ (env : Env) (mq : Int) (st : Stats) (item : SearchItem) (md : Option Str)
      (mt : Option (Option Str)) (raw : Str),
      env.fetch item.url = .ok md mt → 300 ≤ (md.getD []).length →
      env.evaluate item.url (resolveTitle item.title mt) ((md.getD []).take 12000) =
        .resp raw →
      handleResponse raw = none →
      processHit env mq st item =
        .ok (addErr (bumpFetched st) (evalErrMsg item.url jsonFailText))) ∧
    (∀ (env : Env) (mq : Int) (st : Stats) (item : SearchItem) (md : Option Str)
      (mt : Option (Option Str)) (raw : Str) (v : Json),
      env.fetch item.url = .ok md mt → 300 ≤ (md.getD []).length →
      env.evaluate item.url (resolveTitle item.title mt) ((md.getD []).take 12000) =
        .resp raw →
      handleResponse raw = some v → (∀ ms, v ≠ .obj ms) →
      processHit env mq st item =
        .ok (addErr (bumpEvaluated (bumpFetched st)) (evalErrMsg item.url attrFailText))) := by
  refine ⟨?_, ?_, ?_⟩
  · intro j inner v hshape hload hschema hnb hnj
    have hsj : pyStrip j = j := by
      rw [hshape]
      exact pyStrip_cons_append inner (by decide) (by decide)
    have hnofence : splitFirst backtick3 j = none := by
      rw [backtick3_eq]
      exact splitFirst_none_of_no_head hnb
    have hrepj : pyReplaceNE 'j' ['s', 'o', 'n'] [] j = j := by
      refine pyReplaceNE_no_occur ?_
      rw [← jsonTag_eq]
      exact hnj
    refine ⟨?_, ?_, ?_⟩
    · rw [handleResponse, stripFences_eq, hsj, containsFence, hnofence]
      simp only [Option.isSome_none, Bool.false_eq_true, if_false]
      exact hload
    · rw [handleResponse, stripFences_fenced j hnb, hrepj, hsj]
      exact hload
    · have hresh : backtick3 ++ (jsonTag ++ '\n' :: (j ++ '\n' :: backtick3)) =
          backtick3 ++ ((jsonTag ++ '\n' :: (j ++ ['\n'])) ++ backtick3) := by
        simp
      have hYnb : ∀ a ∈ jsonTag ++ '\n' :: (j ++ ['\n']), a ≠ btChar := by
        intro a ha
        rcases List.mem_append.mp ha with h1 | h2
        · have h1' : a = 'j' ∨ a = 's' ∨ a = 'o' ∨ a = 'n' := by
            simpa [jsonTag] using h1
          rcases h1' with rfl | rfl | rfl | rfl <;> decide
        · rcases List.mem_cons.mp h2 with rfl | h3
          · decide
          · rcases List.mem_append.mp h3 with h4 | h5
            · exact hnb a h4
            · have h5' : a = '\n' := by simpa using h5
              subst h5'
              decide
      have hz : splitFirst jsonTag ('\n' :: (j ++ ['\n'])) = none := by
        rw [jsonTag_eq]
        refine splitFirst_cons_none (by decide) ?_
        refine splitFirst_append_last_none (by decide) ?_
        rw [← jsonTag_eq]
        exact hnj
      rw [hresh, handleResponse, stripFences_fenced _ hYnb,
        pyReplaceNE_strip_tag ('\n' :: (j ++ ['\n'])) hz, hshape,
        pyStrip_ws_wrap inner (by decide) (by decide) (by decide) (by decide), ← hshape]
      exact hload
  · intro env mq st item md mt raw hf hlen he hnone
    have h300 : ¬((md.getD []).length < 300) := by omega
    simp only [processHit, hf, evalStage, h300, if_false, he, hnone]
  · intro env mq st item md mt raw v hf hlen he hsome hnotobj
    have h300 : ¬((md.getD []).length < 300) := by omega
    have key : processHit env mq st item =
        afterParse env mq (bumpFetched st) item.url (resolveTitle item.title mt)
          (md.getD []) v := by
      simp only [processHit, hf, evalStage, h300, if_false, he, hsome]
    rw [key]
    cases v with
    | obj ms => exact absurd rfl (hnotobj ms)
    | null => rfl
    | bool b => rfl
    | num q => rfl
    | str s => rfl
    | arr xs => rfl

/-- A schema-matching JSON evaluator response whose `reason` value contains a
triple-backquote sequence. -/
def badFencedResp : Str :=
  "\x7b\"is_deployment_story\": true, \"confidence\": 1, \"reason\": \"uses ``` fences\", \"company\": null, \"use_case\": \"support\", \"technology_stack\": [\"x\"], \"results\": [], \"lessons_learned\": [], \"deployment_stage\": \"production\", \"content_type\": \"case_study\", \"quality_score\": 7\x7d".toList

set_option maxRecDepth 400000 in
/-- Counterexample to claim C5 as stated: `badFencedResp` is exactly one JSON
object matching the Evaluation schema (not wrapped in fences), yet the
pipeline's response handling fails to parse it — the fence-stripping treats
the backquotes inside the string value as a fence and keeps only the garbage
between them. -/
theorem C5_counterexample_backtick :
    (∃ v, jsonLoads badFencedResp = some v ∧ isEvalSchema v = true) ∧
    handleResponse badFencedResp = none :=
  ⟨⟨_, rfl, rfl⟩, rfl⟩

/-- The text between the braces of the well-behaved witness response. -/
def goodRespInner : Str :=
  "\"is_deployment_story\": true, \"confidence\": 1, \"reason\": \"solid\", \"company\": null, \"use_case\": \"support\", \"technology_stack\": [\"x\"], \"results\": [], \"lessons_learned\": [], \"deployment_stage\": \"production\", \"content_type\": \"case_study\", \"quality_score\": 7".toList

/-- A schema-matching response with no backquote and no `json` substring. -/
def goodResp : Str := lbraceChar :: (goodRespInner ++ [rbraceChar])

set_option maxRecDepth 400000 in
/-- Witness for C5 (amended) at a concrete well-behaved response. -/
theorem C5_response_handling_witness :
    ∃ v, handleResponse goodResp = some v ∧
      handleResponse (backtick3 ++ (goodResp ++ backtick3)) = some v ∧
      handleResponse (backtick3 ++ (jsonTag ++ '\n' :: (goodResp ++ '\n' :: backtick3))) =
        some v :=
  ⟨_, C5_response_handling.1 goodResp goodRespInner _ rfl rfl rfl (by decide) rfl⟩
